import Mathlib

/-!
# Verification of the freedesktop entry parser core

Shallow embedding of `src/parser.rs`, `src/errors.rs` and `src/internal.rs`
of the `freedesktop_entry_parser` crate.  Bytes are modelled as `Nat`
(values `0..=255` in practice; the parser only compares bytes for equality,
so no arithmetic wrapping is involved), byte slices as `List Nat`, and the
nom combinators used by the source (`tag`, `take_till`, `take_till1`,
`delimited`, `terminated`, `many1`) are embedded directly.  Hash maps are
modelled extensionally as functions from keys to optional values, which is
the observable behaviour of `std::collections::HashMap` with `SP` keys
(whose `PartialEq`/`Hash` compare the pointed-to string contents).
-/

/-- Error kinds of `nom::error::ErrorKind` that this parser can produce. -/
inductive ErrorKind where
  | Tag
  | TakeTill1
  | Complete
deriving DecidableEq

/-- `nom::error::Error<&[u8]>`: the remaining input and the error kind.
The source only ever constructs the `nom::Err::Error` variant (complete
parsers never produce `Incomplete`, and no `Failure` is raised). -/
structure NomErr where
  input : List Nat
  code : ErrorKind
deriving DecidableEq

/-- Decidable equality of `Except` results (needed to check concrete
parses by `decide`). -/
instance {ε α : Type} [DecidableEq ε] [DecidableEq α] : DecidableEq (Except ε α) := fun x y =>
  match x, y with
  | .error a, .error b => decidable_of_iff (a = b) (by simp)
  | .ok a, .ok b => decidable_of_iff (a = b) (by simp)
  | .error _, .ok _ => isFalse (by simp)
  | .ok _, .error _ => isFalse (by simp)

/-- `IResult<&[u8], A>` specialised to the default error type:
on success the remaining input and the produced value. -/
abbrev IResult (α : Type) := Except NomErr (List Nat × α)

/-- `nom::bytes::complete::take_till`: split the input at the first byte
satisfying `p`; first component is the remaining input (starting with the
matching byte, or empty), second is the consumed part.  The complete
version never fails. -/
def take_till (p : Nat → Bool) (input : List Nat) : List Nat × List Nat :=
  (input.dropWhile (fun c => !p c), input.takeWhile (fun c => !p c))

/-- `nom::bytes::complete::tag`: match `t` at the start of the input. -/
def tag (t : List Nat) (input : List Nat) : IResult (List Nat) :=
  if t.isPrefixOf input then .ok (input.drop t.length, t)
  else .error ⟨input, .Tag⟩

/-- `nom::bytes::complete::take_till1`: like `take_till` but the consumed
part must be nonempty. -/
def take_till1 (p : Nat → Bool) (input : List Nat) : IResult (List Nat) :=
  match take_till p input with
  | (rem, taken) =>
    if taken.isEmpty then .error ⟨input, .TakeTill1⟩ else .ok (rem, taken)

/-- `parser.rs`: `ParamBytes` — a param value and attribute base name. -/
structure ParamBytes where
  param : List Nat
  attr_name : List Nat
deriving DecidableEq

/-- `parser.rs`: `AttrBytes` — a name/value pair, with optional param. -/
structure AttrBytes where
  name : List Nat
  value : List Nat
  param : Option ParamBytes
deriving DecidableEq

/-- `parser.rs`: `SectionBytes` — one section of an entry file. -/
structure SectionBytes where
  title : List Nat
  attrs : List AttrBytes
deriving DecidableEq

/-- `parser.rs`: `not_whitespace`. -/
def not_whitespace (c : Nat) : Bool :=
  c != 10 && c != 9 && c != 13 && c != 32

/-- `parser.rs`: `header` — `delimited(tag(b"["), take_till1(|c| c == b']'), tag(b"]"))`.
Byte 91 is `[`, byte 93 is `]`. -/
def header (input : List Nat) : IResult (List Nat) :=
  match tag [91] input with
  | .error e => .error e
  | .ok (rem, _) =>
    match take_till1 (fun c => c == 93) rem with
    | .error e => .error e
    | .ok (rem2, name) =>
      match tag [93] rem2 with
      | .error e => .error e
      | .ok (rem3, _) => .ok (rem3, name)

/-- The length of `dropWhile` output is at most the input's length
(termination measure helper for the recursive skippers below). -/
theorem length_dropWhile_le {α : Type} (p : α → Bool) (l : List α) :
    (l.dropWhile p).length ≤ l.length := by
  induction l with
  | nil => simp
  | cons a l ih =>
    rw [List.dropWhile_cons]
    split
    · exact Nat.le_succ_of_le ih
    · exact Nat.le_refl _

/-- When the whitespace skip lands on a `#`, discarding through the end of
the comment line strictly consumes input (the `#` itself goes away). -/
theorem next_line_rec_lt {input : List Nat}
    (h2 : ((take_till not_whitespace input).1).head? = some 35) :
    ((take_till (fun c => c == 10) (take_till not_whitespace input).1).1).length
      < input.length := by
  simp only [take_till] at h2 ⊢
  have h3 : (List.dropWhile (fun c => !not_whitespace c) input).length ≤ input.length :=
    length_dropWhile_le _ _
  rcases hrem : List.dropWhile (fun c => !not_whitespace c) input with _ | ⟨c, t⟩
  · rw [hrem] at h2
    simp at h2
  · rw [hrem] at h2 h3
    have hc : c = 35 := by simpa using h2
    subst hc
    rw [List.dropWhile_cons]
    simp only [show (!(35 == 10)) = true from rfl, if_pos]
    calc (List.dropWhile (fun c => !(c == 10)) t).length
        ≤ t.length := length_dropWhile_le _ _
      _ < (35 :: t).length := by simp
      _ ≤ input.length := h3

/-- `parser.rs`: `next_line` — skip a whitespace run, then recursively skip
comment lines (byte 35 is `#`, byte 10 is `\n`).  The `?` applications in
the source are on complete `take_till`, which cannot fail, so every path
returns `Ok`; the `Except` result type is kept to mirror the signature. -/
def next_line (input : List Nat) : Except NomErr (List Nat) :=
  if _h : input.isEmpty then .ok []
  else
    if _h2 : ((take_till not_whitespace input).1).head? = some 35 then
      next_line (take_till (fun c => c == 10) (take_till not_whitespace input).1).1
    else .ok (take_till not_whitespace input).1
termination_by input.length
decreasing_by exact next_line_rec_lt _h2

/-- `parser.rs`: `find_start` — `take_till(|c| c == b'[')`.  The complete
`take_till` cannot fail, so the `IResult` wrapper is dropped. -/
def find_start (input : List Nat) : List Nat × List Nat :=
  take_till (fun c => c == 91) input

/-- `parser.rs`: `params` — `terminated(take_till(|c| c == b'['), tag(b"["))`
then `take_till(|c| c == b']')`. -/
def params (input : List Nat) : IResult ParamBytes :=
  match take_till (fun c => c == 91) input with
  | (rem0, attr_name) =>
    match tag [91] rem0 with
    | .error e => .error e
    | .ok (rem, _) =>
      match take_till (fun c => c == 93) rem with
      | (rem2, param) => .ok (rem2, { param := param, attr_name := attr_name })

/-- `parser.rs`: `attr` — reject a leading `[`, take the name up to the
first `=` (byte 61), require the `=`, take the value up to the next `\n`,
then advance past whitespace/comments; the param sub-parse on the name is
best-effort (`.ok()`). -/
def attr (input : List Nat) : IResult AttrBytes :=
  if input.head? = some 91 then .error ⟨input, .Complete⟩
  else
    match take_till (fun c => c == 61) input with
    | (rem0, name) =>
      match tag [61] rem0 with
      | .error e => .error e
      | .ok (rem1, _) =>
        match take_till (fun c => c == 10) rem1 with
        | (rem2, value) =>
          match next_line rem2 with
          | .error e => .error e
          | .ok nl =>
            .ok (nl, { name := name, value := value,
                       param := (params name).toOption.map (fun r => r.2) })

/-- `next_line` never fails (every `?` in its body is on an infallible
complete combinator) and never grows the input. -/
theorem next_line_ok (input : List Nat) :
    ∃ out, next_line input = .ok out ∧ out.length ≤ input.length := by
  induction input using next_line.induct with
  | case1 input h =>
    refine ⟨[], by rw [next_line]; simp [h], by simp⟩
  | case2 input h h2 ih =>
    obtain ⟨out, hout, hlen⟩ := ih
    refine ⟨out, ?_, ?_⟩
    · rw [next_line]
      simp only [h, h2, dite_true, dite_false]
      exact hout
    · have h3 : ((take_till not_whitespace input).1).length ≤ input.length :=
        length_dropWhile_le _ _
      have h4 : ((take_till (fun c => c == 10) (take_till not_whitespace input).1).1).length
          ≤ ((take_till not_whitespace input).1).length := length_dropWhile_le _ _
      omega
  | case3 input h h2 =>
    refine ⟨(take_till not_whitespace input).1, ?_, length_dropWhile_le _ _⟩
    rw [next_line]
    simp [h, h2]

/-- `tag` with a single-byte pattern on the empty input fails. -/
theorem tag_single_nil (c : Nat) : tag [c] [] = .error ⟨[], .Tag⟩ := rfl

/-- `tag` with a single-byte pattern on a nonempty input. -/
theorem tag_single_cons (c x : Nat) (xs : List Nat) :
    tag [c] (x :: xs) =
      if x = c then .ok (xs, [c]) else .error ⟨x :: xs, .Tag⟩ := by
  by_cases h : x = c
  · subst h
    simp [tag, List.isPrefixOf]
  · simp [tag, List.isPrefixOf, h, Ne.symm h]

/-- Inversion for a successful single-byte `tag`. -/
theorem tag_single_ok {c : Nat} {input rem out : List Nat}
    (h : tag [c] input = .ok (rem, out)) : input = c :: rem := by
  cases input with
  | nil => rw [tag_single_nil] at h; cases h
  | cons x xs =>
    rw [tag_single_cons] at h
    split at h
    · cases h
      simp_all
    · cases h


/-- A successful `attr` strictly consumes input (it eats at least the `=`),
which bounds the recursion in `many1`. -/
theorem attr_consumes {input rem : List Nat} {a : AttrBytes}
    (h : attr input = .ok (rem, a)) : rem.length < input.length := by
  unfold attr at h
  split at h
  · cases h
  · simp only [take_till] at h
    split at h
    · cases h
    · rename_i rem1 t htag
      split at h
      · cases h
      · rename_i nl hnl
        cases h
        have hsplit := tag_single_ok htag
        have h0 : (List.dropWhile (fun c => !(c == 61)) input).length ≤ input.length :=
          length_dropWhile_le _ _
        rw [hsplit] at h0
        obtain ⟨out, hout, hlen⟩ :=
          next_line_ok (List.dropWhile (fun c => !(c == 10)) rem1)
        rw [hout] at hnl
        cases hnl
        have h1 : (List.dropWhile (fun c => !(c == 10)) rem1).length ≤ rem1.length :=
          length_dropWhile_le _ _
        simp only [List.length_cons] at h0
        omega

/-- `nom::multi::many1` specialised to `attr`, as used by `section`:
`attr` must succeed at least once; afterwards attributes are read until the
first failure, whose error is discarded.  (With nom's default error type a
failing first parse yields the inner error itself.) -/
def many1Attr (input : List Nat) : IResult (List AttrBytes) :=
  match h : attr input with
  | .error e => .error e
  | .ok (rem, a) =>
    match many1Attr rem with
    | .error _ => .ok (rem, [a])
    | .ok (rem2, rest) => .ok (rem2, a :: rest)
termination_by input.length
decreasing_by exact attr_consumes h

/-- Helper for `many1Attr_consumes`, by induction on a length bound. -/
theorem many1Attr_consumes_aux :
    ∀ (n : Nat) (input rem : List Nat) (l : List AttrBytes), input.length ≤ n →
      many1Attr input = .ok (rem, l) → rem.length < input.length := by
  intro n
  induction n with
  | zero =>
    intro input rem l hle h
    unfold many1Attr at h
    split at h
    · cases h
    · rename_i rem1 a heq
      have := attr_consumes heq
      omega
  | succ n ih =>
    intro input rem l hle h
    unfold many1Attr at h
    split at h
    · cases h
    · rename_i rem1 a heq
      have h1 := attr_consumes heq
      split at h
      · cases h
        exact h1
      · rename_i rem2 rest hrec
        cases h
        have h2 := ih _ _ _ (show rem1.length ≤ n by omega) hrec
        omega

/-- A successful `many1Attr` strictly consumes input. -/
theorem many1Attr_consumes {input rem : List Nat} {l : List AttrBytes}
    (h : many1Attr input = .ok (rem, l)) : rem.length < input.length :=
  many1Attr_consumes_aux input.length input rem l (Nat.le_refl _) h

/-- A successful `header` strictly consumes input (both brackets and the
nonempty title). -/
theorem header_consumes {input rem t : List Nat}
    (h : header input = .ok (rem, t)) : rem.length < input.length := by
  unfold header at h
  split at h
  · cases h
  · rename_i rem1 u h1
    split at h
    · cases h
    · rename_i rem2 name h2
      split at h
      · cases h
      · rename_i rem3 v h3
        cases h
        have e1 := tag_single_ok h1
        have e3 := tag_single_ok h3
        have e2 : rem2.length ≤ rem1.length := by
          unfold take_till1 at h2
          simp only [take_till] at h2
          split at h2
          · cases h2
          · cases h2
            exact length_dropWhile_le _ _
        rw [e1]
        rw [e3] at e2
        simp only [List.length_cons] at e2 ⊢
        omega

/-- `parser.rs`: `section` — header, then line-skip, then `many1(attr)`. -/
def «section» (input : List Nat) : IResult SectionBytes :=
  match header input with
  | .error e => .error e
  | .ok (rem, title) =>
    match next_line rem with
    | .error e => .error e
    | .ok rem' =>
      match many1Attr rem' with
      | .error e => .error e
      | .ok (rem2, attrs) => .ok (rem2, { title := title, attrs := attrs })

/-- A successful `section` strictly consumes input. -/
theorem section_consumes {input rem : List Nat} {sb : SectionBytes}
    (h : «section» input = .ok (rem, sb)) : rem.length < input.length := by
  unfold «section» at h
  split at h
  · cases h
  · rename_i rem1 title h1
    split at h
    · cases h
    · rename_i rem' h2
      split at h
      · cases h
      · rename_i rem2 attrs h3
        cases h
        have e1 := header_consumes h1
        obtain ⟨out, hout, hlen⟩ := next_line_ok rem1
        rw [hout] at h2
        cases h2
        have e3 := many1Attr_consumes h3
        omega

/-- A UTF-8 continuation byte (`0x80..=0xBF`). -/
def utf8Cont (c : Nat) : Bool :=
  128 ≤ c && c ≤ 191

/-- Validity of a byte sequence as UTF-8, following the table used by
`core::str::from_utf8` (rejecting overlong encodings, surrogates and
code points above `U+10FFFF`).  Models the check performed by
`std::str::from_utf8` in `internal.rs::parse_str` and `errors.rs`. -/
def utf8Valid : List Nat → Bool
  | [] => true
  | c :: rest =>
    if c ≤ 127 then utf8Valid rest
    else if 194 ≤ c && c ≤ 223 then
      match rest with
      | c1 :: r => utf8Cont c1 && utf8Valid r
      | [] => false
    else if c = 224 then
      match rest with
      | c1 :: c2 :: r => (160 ≤ c1 && c1 ≤ 191) && utf8Cont c2 && utf8Valid r
      | _ => false
    else if (225 ≤ c && c ≤ 236) || c = 238 || c = 239 then
      match rest with
      | c1 :: c2 :: r => utf8Cont c1 && utf8Cont c2 && utf8Valid r
      | _ => false
    else if c = 237 then
      match rest with
      | c1 :: c2 :: r => (128 ≤ c1 && c1 ≤ 159) && utf8Cont c2 && utf8Valid r
      | _ => false
    else if c = 240 then
      match rest with
      | c1 :: c2 :: c3 :: r =>
        (144 ≤ c1 && c1 ≤ 191) && utf8Cont c2 && utf8Cont c3 && utf8Valid r
      | _ => false
    else if 241 ≤ c && c ≤ 243 then
      match rest with
      | c1 :: c2 :: c3 :: r => utf8Cont c1 && utf8Cont c2 && utf8Cont c3 && utf8Valid r
      | _ => false
    else if c = 244 then
      match rest with
      | c1 :: c2 :: c3 :: r =>
        (128 ≤ c1 && c1 ≤ 143) && utf8Cont c2 && utf8Cont c3 && utf8Valid r
      | _ => false
    else false

/-- `errors.rs`: `ErrorBytes` — the remaining input at a parse failure,
as text when it is valid UTF-8 and as raw bytes otherwise. -/
inductive ErrorBytes where
  | Valid (s : List Nat)
  | Invalid (bytes : List Nat)
deriving DecidableEq

/-- `errors.rs`: `ParseError`. -/
inductive ParseError where
  | Other (at_ : ErrorBytes) (kind : ErrorKind)
  | Incomplete
  | Utf8Error (bytes : List Nat)
deriving DecidableEq

/-- `errors.rs`: `impl From<nom::Err<NomError<&[u8]>>> for ParseError`.
Only the `Err::Error` variant occurs with complete parsers (`Failure` is
handled identically and `Incomplete` never arises). -/
def ofNomErr (e : NomErr) : ParseError :=
  if utf8Valid e.input then .Other (.Valid e.input) e.code
  else .Other (.Invalid e.input) e.code

/-- `parser.rs`: `EntryIter` — remaining input plus the flag recording
whether the initial scan to the first `[` has happened. -/
structure EntryIter where
  rem : List Nat
  found_start : Bool
deriving DecidableEq


/-- Body of `EntryIter::next_section` after the one-off `found_start`
update: re-scan to the next `[`, parse one section, and store the new
remainder back only on success (on error `self.rem` is left untouched
by the early `?` return). -/
def EntryIter.next_section_from (it : EntryIter) : EntryIter × Except ParseError SectionBytes :=
  match «section» (find_start it.rem).1 with
  | .error e => (it, .error (ofNomErr e))
  | .ok (rem2, section_bytes) => ({ it with rem := rem2 }, .ok section_bytes)

/-- `parser.rs`: `EntryIter::next_section`.  The state after the call is
returned alongside the result (`&mut self` is modelled by state passing):
on the first call the preamble before the first `[` is discarded and
`found_start` is set; the rest is `next_section_from`. -/
def EntryIter.next_section (it : EntryIter) : EntryIter × Except ParseError SectionBytes :=
  EntryIter.next_section_from
    (if it.found_start then it
     else { rem := (find_start it.rem).1, found_start := true })

/-- `parser.rs`: `impl Iterator for EntryIter` — `next` yields `None` once
the stored remainder is empty, otherwise the result of `next_section`. -/
def EntryIter.next (it : EntryIter) : EntryIter × Option (Except ParseError SectionBytes) :=
  if it.rem.isEmpty then (it, none)
  else
    match it.next_section with
    | (it', r) => (it', some r)

/-- `parser.rs`: `parse_entry` — build the iterator over a byte buffer. -/
def parse_entry (input : List Nat) : EntryIter :=
  { rem := input, found_start := false }

/-- A successful `next_section_from` strictly shrinks the remainder. -/
theorem next_section_from_consumes {it it' : EntryIter} {sb : SectionBytes}
    (h : it.next_section_from = (it', .ok sb)) : it'.rem.length < it.rem.length := by
  unfold EntryIter.next_section_from at h
  split at h
  · cases h
  · rename_i rem2 sb2 hsec
    cases h
    have h1 := section_consumes hsec
    have h2 : ((find_start it.rem).1).length ≤ it.rem.length := by
      unfold find_start take_till
      exact length_dropWhile_le _ _
    simpa using Nat.lt_of_lt_of_le h1 h2

/-- A successful `next_section` strictly shrinks the remainder. -/
theorem next_section_consumes {it it' : EntryIter} {sb : SectionBytes}
    (h : it.next_section = (it', .ok sb)) : it'.rem.length < it.rem.length := by
  unfold EntryIter.next_section at h
  split at h
  · exact next_section_from_consumes h
  · have h1 := next_section_from_consumes h
    have h2 : ((find_start it.rem).1).length ≤ it.rem.length := by
      unfold find_start take_till
      exact length_dropWhile_le _ _
    simp only at h1
    omega

/-- A successful `EntryIter::next` strictly shrinks the remainder. -/
theorem next_some_ok_consumes {it it' : EntryIter} {sb : SectionBytes}
    (h : it.next = (it', some (.ok sb))) : it'.rem.length < it.rem.length := by
  unfold EntryIter.next at h
  split at h
  · cases h
  · split at h
    rename_i it2 r hns
    cases h
    exact next_section_consumes hns

/-- `.collect::<Result<Vec<_>, _>>()` over `EntryIter`, as performed by
`Internal::new`: drain the iterator, short-circuiting on the first error. -/
def collectFrom (it : EntryIter) : Except ParseError (List SectionBytes) :=
  match h : it.next with
  | (_, none) => .ok []
  | (_, some (.error e)) => .error e
  | (it', some (.ok sb)) =>
    match collectFrom it' with
    | .error e => .error e
    | .ok rest => .ok (sb :: rest)
termination_by it.rem.length
decreasing_by exact next_some_ok_consumes h

/-- `parse_entry(input).collect::<Result<Vec<_>, _>>()`. -/
def collectSections (input : List Nat) : Except ParseError (List SectionBytes) :=
  collectFrom (parse_entry input)

/-- Extensional model of `std::collections::HashMap<SP, β>`: `SP` keys
hash and compare by the pointed-to string contents, so the observable
behaviour is a partial function from byte strings to values. -/
abbrev HMap (β : Type) := List Nat → Option β

/-- `HashMap::new()`. -/
def HMap.empty {β : Type} : HMap β := fun _ => none

/-- `HashMap::insert` (overwrites any previous binding). -/
def HMap.insert {β : Type} (m : HMap β) (k : List Nat) (v : β) : HMap β :=
  fun q => if q = k then some v else m q

/-- `map.entry(k).and_modify(f).or_insert(dflt)`. -/
def HMap.entryModOr {β : Type} (m : HMap β) (k : List Nat) (f : β → β) (dflt : β) : HMap β :=
  match m k with
  | some v => HMap.insert m k (f v)
  | none => HMap.insert m k dflt

/-- `internal.rs`: `ParamMap` — map from parameter key to value. -/
abbrev ParamMap := HMap (List Nat)

/-- `internal.rs`: `ParamMap::new`. -/
def ParamMap.new : ParamMap := HMap.empty

/-- `internal.rs`: `AttrValue` — optional plain value plus optional
parameter map. -/
structure AttrValue where
  value : Option (List Nat)
  param_map : Option ParamMap

/-- `internal.rs`: `AttrMap` — map from attribute base name to value. -/
abbrev AttrMap := HMap AttrValue

/-- `internal.rs`: `InternalMap` — map from section name to `AttrMap`. -/
abbrev InternalMap := HMap AttrMap

/-- `internal.rs`: `Internal` — the indexed store: the (possibly not yet
installed) index and the owned byte buffer.  The pinning and raw-pointer
mechanics of the source affect memory management only; the observable
content is the map and the data. -/
structure Internal where
  map : Option InternalMap
  data : List Nat

/-- `internal.rs`: `parse_str` — UTF-8 validation of a byte slice; the
decoded string has exactly the same bytes, so it is modelled as the
identity on valid input. -/
def parse_str (input : List Nat) : Except ParseError (List Nat) :=
  if utf8Valid input then .ok input else .error (.Utf8Error input)

/-- Body of the per-attribute loop of `Internal::new` (`internal.rs`
lines 50–88): decode the value, then merge the attribute into the
section's map under its base name (parameterised declarations insert
into the `param_map`, plain ones set `value`; `entry/and_modify/or_insert`
gives last-write-wins for the same sub-key). -/
def insertAttr (map : AttrMap) (attr_bytes : AttrBytes) : Except ParseError AttrMap :=
  match parse_str attr_bytes.value with
  | .error e => .error e
  | .ok value =>
    match attr_bytes.param with
    | some param =>
      match parse_str param.attr_name with
      | .error e => .error e
      | .ok name =>
        match parse_str param.param with
        | .error e => .error e
        | .ok param_s =>
          .ok (HMap.entryModOr map name
            (fun a =>
              { a with
                param_map := some (HMap.insert (a.param_map.getD ParamMap.new) param_s value) })
            { value := none,
              param_map := some (HMap.insert HMap.empty param_s value) })
    | none =>
      match parse_str attr_bytes.name with
      | .error e => .error e
      | .ok name =>
        .ok (HMap.entryModOr map name
          (fun a => { a with value := some value })
          { value := some value, param_map := none })

/-- The attribute loop of `Internal::new` over one section's attributes. -/
def buildAttrMap : List AttrBytes → AttrMap → Except ParseError AttrMap
  | [], m => .ok m
  | a :: rest, m =>
    match insertAttr m a with
    | .error e => .error e
    | .ok m' => buildAttrMap rest m'

/-- The section loop of `Internal::new`: decode the title, build the
section's attribute map from an empty map, and insert it (overwriting any
earlier section of the same title). -/
def buildSections : List SectionBytes → InternalMap → Except ParseError InternalMap
  | [], s => .ok s
  | sb :: rest, s =>
    match parse_str sb.title with
    | .error e => .error e
    | .ok t =>
      match buildAttrMap sb.attrs HMap.empty with
      | .error e => .error e
      | .ok m => buildSections rest (HMap.insert s t m)

/-- `internal.rs`: `Internal::new` — collect all sections (short-circuiting
on the first tokenizer error), build the nested index, and install it.
The two-phase pinning protocol of the source only fixes addresses; its
observable result is the final `map = Some(sections)`. -/
def Internal.new (data : List Nat) : Except ParseError Internal :=
  match collectSections data with
  | .error e => .error e
  | .ok entry_bytes =>
    match buildSections entry_bytes HMap.empty with
    | .error e => .error e
    | .ok sections => .ok { map := some sections, data := data }

/-- `internal.rs`: `Internal::get_section`.  The source `unwrap`s the
`map` field; the `none` branch is unreachable for stores produced by
`Internal::new` (proved below), and is mapped to `none` here. -/
def Internal.get_section (self : Internal) (section_name : List Nat) : Option AttrMap :=
  match self.map with
  | some m => m section_name
  | none => none

/-- `internal.rs`: `AttrMap::get_attr`. -/
def AttrMap.get_attr (m : AttrMap) (attr_name : List Nat) : Option AttrValue :=
  m attr_name

/-- `internal.rs`: `AttrValue::get_value`. -/
def AttrValue.get_value (a : AttrValue) : Option (List Nat) :=
  a.value

/-- `internal.rs`: `ParamMap::get_param`. -/
def ParamMap.get_param (pm : ParamMap) (param_val : List Nat) : Option (List Nat) :=
  pm param_val

/-- `internal.rs`: `Internal::get` — point lookup: section, then
attribute, then either the plain value or the requested parameter. -/
def Internal.get (self : Internal) (section_name attr_name : List Nat)
    (param_name : Option (List Nat)) : Option (List Nat) :=
  match Internal.get_section self section_name with
  | none => none
  | some section_map =>
    match AttrMap.get_attr section_map attr_name with
    | none => none
    | some attr_val =>
      match param_name with
      | some p =>
        match attr_val.param_map with
        | none => none
        | some param_map => ParamMap.get_param param_map p
      | none => AttrValue.get_value attr_val

/-- `internal.rs`: `Internal::get_attr`. -/
def Internal.get_attr (self : Internal) (section_name attr_name : List Nat) :
    Option AttrValue :=
  match Internal.get_section self section_name with
  | none => none
  | some section_map => AttrMap.get_attr section_map attr_name

/-- `internal.rs`: `Internal::has_section`. -/
def Internal.has_section (self : Internal) (section_name : List Nat) : Bool :=
  (Internal.get_section self section_name).isSome

/-- `lib.rs`: `AttrSelector::has_attr` — `get_attr(..).is_some()`. -/
def Entry.has_attr (self : Internal) (section_name attr_name : List Nat) : Bool :=
  (Internal.get_attr self section_name attr_name).isSome

/-! ## Kernel-evaluable mirrors

The functions defined by well-founded recursion above (`next_line`,
`many1Attr`, `collectFrom`) do not reduce definitionally, so concrete
instances cannot be checked by `decide`/`rfl` directly.  The following
fuel-indexed structural mirrors compute the same results whenever the fuel
exceeds the input length (proved once and for all below); all concrete
evaluations go through them. -/

/-- Structural mirror of `next_line` (fuel-indexed). -/
def next_lineF : Nat → List Nat → Except NomErr (List Nat)
  | 0, _ => .ok []
  | fuel + 1, input =>
    if input.isEmpty then .ok []
    else
      if ((take_till not_whitespace input).1).head? = some 35 then
        next_lineF fuel (take_till (fun c => c == 10) (take_till not_whitespace input).1).1
      else .ok (take_till not_whitespace input).1

/-- The mirror agrees with `next_line` under sufficient fuel. -/
theorem next_lineF_eq : ∀ (fuel : Nat) (input : List Nat), input.length < fuel →
    next_lineF fuel input = next_line input := by
  intro fuel
  induction fuel with
  | zero => exact fun input h => absurd h (Nat.not_lt_zero _)
  | succ fuel ih =>
    intro input h
    rw [next_line]
    by_cases h1 : input.isEmpty = true
    · simp [next_lineF, h1]
    · by_cases h2 : ((take_till not_whitespace input).1).head? = some 35
      · have hlt := @next_line_rec_lt input h2
        rw [dif_neg h1, dif_pos h2]
        simp only [next_lineF, if_neg h1, if_pos h2]
        exact ih _ (by omega)
      · rw [dif_neg h1, dif_neg h2]
        simp only [next_lineF, if_neg h1, if_neg h2]

/-- Specialisation with the canonical sufficient fuel. -/
theorem next_lineF_succ_eq (input : List Nat) :
    next_lineF (input.length + 1) input = next_line input :=
  next_lineF_eq _ _ (Nat.lt_succ_self _)

/-- Structural mirror of `attr`. -/
def attrF (input : List Nat) : IResult AttrBytes :=
  if input.head? = some 91 then .error ⟨input, .Complete⟩
  else
    match take_till (fun c => c == 61) input with
    | (rem0, name) =>
      match tag [61] rem0 with
      | .error e => .error e
      | .ok (rem1, _) =>
        match take_till (fun c => c == 10) rem1 with
        | (rem2, value) =>
          match next_lineF (rem2.length + 1) rem2 with
          | .error e => .error e
          | .ok nl =>
            .ok (nl, { name := name, value := value,
                       param := (params name).toOption.map (fun r => r.2) })

/-- The mirror agrees with `attr`. -/
theorem attrF_eq (input : List Nat) : attrF input = attr input := by
  unfold attrF attr
  simp only [next_lineF_succ_eq]

/-- Structural mirror of `many1Attr` (fuel-indexed). -/
def many1AttrGo : Nat → List Nat → IResult (List AttrBytes)
  | 0, input => .error ⟨input, .Tag⟩
  | fuel + 1, input =>
    match attrF input with
    | .error e => .error e
    | .ok (rem, a) =>
      match many1AttrGo fuel rem with
      | .error _ => .ok (rem, [a])
      | .ok (rem2, rest) => .ok (rem2, a :: rest)

/-- The mirror agrees with `many1Attr` under sufficient fuel. -/
theorem many1AttrGo_eq : ∀ (fuel : Nat) (input : List Nat), input.length < fuel →
    many1AttrGo fuel input = many1Attr input := by
  intro fuel
  induction fuel with
  | zero => exact fun input h => absurd h (Nat.not_lt_zero _)
  | succ fuel ih =>
    intro input h
    rw [many1Attr]
    simp only [many1AttrGo, attrF_eq]
    cases hattr : attr input with
    | error e => rfl
    | ok p =>
      match p with
      | (rem, a) =>
        have hlt := attr_consumes hattr
        dsimp only
        rw [ih rem (by omega)]

/-- Structural mirror of `many1Attr` with the canonical fuel. -/
def many1AttrF (input : List Nat) : IResult (List AttrBytes) :=
  many1AttrGo (input.length + 1) input

/-- The mirror agrees with `many1Attr`. -/
theorem many1AttrF_eq (input : List Nat) : many1AttrF input = many1Attr input :=
  many1AttrGo_eq _ _ (Nat.lt_succ_self _)

/-- Structural mirror of `section`. -/
def sectionF (input : List Nat) : IResult SectionBytes :=
  match header input with
  | .error e => .error e
  | .ok (rem, title) =>
    match next_lineF (rem.length + 1) rem with
    | .error e => .error e
    | .ok rem' =>
      match many1AttrF rem' with
      | .error e => .error e
      | .ok (rem2, attrs) => .ok (rem2, { title := title, attrs := attrs })

/-- The mirror agrees with `section`. -/
theorem sectionF_eq (input : List Nat) : sectionF input = «section» input := by
  unfold sectionF «section»
  simp only [next_lineF_succ_eq, many1AttrF_eq]

/-- Structural mirror of `next_section_from`. -/
def next_section_fromF (it : EntryIter) : EntryIter × Except ParseError SectionBytes :=
  match sectionF (find_start it.rem).1 with
  | .error e => (it, .error (ofNomErr e))
  | .ok (rem2, section_bytes) => ({ it with rem := rem2 }, .ok section_bytes)

/-- The mirror agrees with `next_section_from`. -/
theorem next_section_fromF_eq (it : EntryIter) :
    next_section_fromF it = it.next_section_from := by
  unfold next_section_fromF EntryIter.next_section_from
  simp only [sectionF_eq]

/-- Structural mirror of `next_section`. -/
def next_sectionF (it : EntryIter) : EntryIter × Except ParseError SectionBytes :=
  next_section_fromF
    (if it.found_start then it
     else { rem := (find_start it.rem).1, found_start := true })

/-- The mirror agrees with `next_section`. -/
theorem next_sectionF_eq (it : EntryIter) : next_sectionF it = it.next_section := by
  unfold next_sectionF EntryIter.next_section
  simp only [next_section_fromF_eq]

/-- Structural mirror of `EntryIter::next`. -/
def nextF (it : EntryIter) : EntryIter × Option (Except ParseError SectionBytes) :=
  if it.rem.isEmpty then (it, none)
  else
    match next_sectionF it with
    | (it', r) => (it', some r)

/-- The mirror agrees with `EntryIter::next`. -/
theorem nextF_eq (it : EntryIter) : nextF it = it.next := by
  unfold nextF EntryIter.next
  simp only [next_sectionF_eq]

/-- Structural mirror of `collectFrom` (fuel-indexed). -/
def collectFromGo : Nat → EntryIter → Except ParseError (List SectionBytes)
  | 0, _ => .ok []
  | fuel + 1, it =>
    match nextF it with
    | (_, none) => .ok []
    | (_, some (.error e)) => .error e
    | (it', some (.ok sb)) =>
      match collectFromGo fuel it' with
      | .error e => .error e
      | .ok rest => .ok (sb :: rest)

/-- The mirror agrees with `collectFrom` under sufficient fuel. -/
theorem collectFromGo_eq : ∀ (fuel : Nat) (it : EntryIter), it.rem.length < fuel →
    collectFromGo fuel it = collectFrom it := by
  intro fuel
  induction fuel with
  | zero => exact fun it h => absurd h (Nat.not_lt_zero _)
  | succ fuel ih =>
    intro it h
    rw [collectFrom]
    simp only [collectFromGo, nextF_eq]
    cases hn : it.next with
    | mk it' r =>
      match r with
      | none => rfl
      | some (.error e) => rfl
      | some (.ok sb) =>
        have hlt := next_some_ok_consumes hn
        dsimp only
        rw [ih it' (by omega)]

/-- Structural mirror of `collectSections`. -/
def collectSectionsF (input : List Nat) : Except ParseError (List SectionBytes) :=
  collectFromGo (input.length + 1) (parse_entry input)

/-- The mirror agrees with `collectSections`. -/
theorem collectSectionsF_eq (input : List Nat) :
    collectSectionsF input = collectSections input :=
  collectFromGo_eq _ _ (Nat.lt_succ_self _)

/-- Structural mirror of `Internal::new`. -/
def InternalNewF (data : List Nat) : Except ParseError Internal :=
  match collectSectionsF data with
  | .error e => .error e
  | .ok entry_bytes =>
    match buildSections entry_bytes HMap.empty with
    | .error e => .error e
    | .ok sections => .ok { map := some sections, data := data }

/-- The mirror agrees with `Internal::new`. -/
theorem InternalNewF_eq (data : List Nat) : InternalNewF data = Internal.new data := by
  unfold InternalNewF Internal.new
  simp only [collectSectionsF_eq]

/-! ## Characterization helpers for the combinators -/

/-- `takeWhile`/`dropWhile` on a list that first satisfies `p` throughout
`name` and then hits `k` with `p k = false`. -/
theorem takeWhile_dropWhile_append {p : Nat → Bool} (name : List Nat) (k : Nat)
    (rest : List Nat) (h : ∀ x ∈ name, p x = true) (hk : p k = false) :
    (name ++ k :: rest).takeWhile p = name ∧ (name ++ k :: rest).dropWhile p = k :: rest := by
  induction name with
  | nil =>
    simp [List.takeWhile_cons, List.dropWhile_cons, hk]
  | cons a t ih =>
    have ha : p a = true := h a (by simp)
    have ih' := ih (fun x hx => h x (by simp [hx]))
    simp [List.takeWhile_cons, List.dropWhile_cons, ha, ih'.1, ih'.2]

/-- If `k` occurs in `l`, `dropWhile (· ≠ k)` stops exactly at the first
occurrence of `k`. -/
theorem dropWhile_mem_split {k : Nat} {l : List Nat} (h : k ∈ l) :
    ∃ t, l.dropWhile (fun c => !(c == k)) = k :: t := by
  induction l with
  | nil => cases h
  | cons a t ih =>
    by_cases hak : a = k
    · subst hak
      exact ⟨t, by simp [List.dropWhile_cons]⟩
    · have hmem : k ∈ t := by
        cases h with
        | head => exact absurd rfl hak
        | tail _ h => exact h
      obtain ⟨t', ht'⟩ := ih hmem
      exact ⟨t', by simp [List.dropWhile_cons, hak, ht']⟩

/-- If `k` does not occur in `l`, `dropWhile (· ≠ k)` consumes everything. -/
theorem dropWhile_not_mem {k : Nat} {l : List Nat} (h : k ∉ l) :
    l.dropWhile (fun c => !(c == k)) = [] := by
  rw [List.dropWhile_eq_nil_iff]
  intro x hx
  simp only [Bool.not_eq_true']
  rw [beq_eq_false_iff_ne]
  intro hxk
  exact h (hxk ▸ hx)

/-- `header` succeeds on exactly the inputs `[name]rest` with a nonempty
`name` free of `]`, and returns the bytes strictly between the brackets. -/
theorem header_decomp (name rest : List Nat) (hne : name ≠ []) (hnc : 93 ∉ name) :
    header (91 :: (name ++ 93 :: rest)) = .ok (rest, name) := by
  have hsplit := @takeWhile_dropWhile_append (fun c => !(c == 93)) name 93 rest
    (fun x hx => by
      simp only [Bool.not_eq_true']
      rw [beq_eq_false_iff_ne]
      intro hk
      exact hnc (hk ▸ hx))
    (by simp)
  unfold header
  rw [tag_single_cons, if_pos rfl]
  dsimp only
  unfold take_till1 take_till
  rw [hsplit.1, hsplit.2]
  dsimp only
  rw [if_neg (by simp [List.isEmpty_iff, hne])]
  dsimp only
  rw [tag_single_cons, if_pos rfl]

/-- `params` on a name containing `[`: base name is everything before the
first `[`, key is everything from there to the first `]` (or the rest). -/
theorem params_mem {name : List Nat} (h : 91 ∈ name) :
    params name = .ok ((((name.dropWhile (fun c => !(c == 91))).drop 1).dropWhile (fun c => !(c == 93))),
      { param := ((name.dropWhile (fun c => !(c == 91))).drop 1).takeWhile (fun c => !(c == 93)),
        attr_name := name.takeWhile (fun c => !(c == 91)) }) := by
  obtain ⟨t, ht⟩ := dropWhile_mem_split h
  unfold params take_till
  dsimp only
  rw [ht, tag_single_cons, if_pos rfl]
  dsimp only
  simp

/-- `params` on a name with no `[` fails (and the failure is swallowed by
`attr` via `.ok()`). -/
theorem params_not_mem {name : List Nat} (h : 91 ∉ name) :
    params name = .error ⟨[], .Tag⟩ := by
  unfold params take_till
  dsimp only
  rw [dropWhile_not_mem h, tag_single_nil]

/-- Inversion of a successful `attr`: the produced record's fields. -/
theorem attr_ok_inv {input rem : List Nat} {a : AttrBytes}
    (h : attr input = .ok (rem, a)) :
    a.name = input.takeWhile (fun c => !(c == 61)) ∧
    a.param = (params a.name).toOption.map (fun r => r.2) := by
  unfold attr at h
  split at h
  · cases h
  · simp only [take_till] at h
    split at h
    · cases h
    · rename_i rem1 t htag
      split at h
      · cases h
      · rename_i nl hnl
        cases h
        exact ⟨rfl, rfl⟩

/-- `attr` on input that does not start with `[` but contains an `=`
somewhere (even on a later line): it succeeds and the name is everything
up to that first `=`, across newlines and `[` included. -/
theorem attr_mem_eq {input : List Nat} (h91 : ¬ input.head? = some 91) (h : 61 ∈ input) :
    ∃ rem, attr input = .ok (rem,
      { name := input.takeWhile (fun c => !(c == 61)),
        value := ((input.dropWhile (fun c => !(c == 61))).drop 1).takeWhile (fun c => !(c == 10)),
        param := (params (input.takeWhile (fun c => !(c == 61)))).toOption.map (fun r => r.2) }) := by
  obtain ⟨t, ht⟩ := dropWhile_mem_split h
  obtain ⟨out, hout, _⟩ := next_line_ok ((t.dropWhile (fun c => !(c == 10))))
  refine ⟨out, ?_⟩
  unfold attr take_till
  rw [if_neg h91]
  dsimp only
  rw [ht, tag_single_cons, if_pos rfl]
  dsimp only
  rw [hout]
  simp

/-- `attr` on input that does not start with `[` and contains no `=` at
all: the `tag(b"=")` fails at the end of input. -/
theorem attr_not_mem {input : List Nat} (h91 : ¬ input.head? = some 91) (h : 61 ∉ input) :
    attr input = .error ⟨[], .Tag⟩ := by
  unfold attr take_till
  rw [if_neg h91]
  dsimp only
  rw [dropWhile_not_mem h, tag_single_nil]

/-- `find_start` does not move when already standing on a `[`. -/
theorem find_start_bracket (l : List Nat) : (find_start (91 :: l)).1 = 91 :: l := by
  unfold find_start take_till
  simp [List.dropWhile_cons]

/-- After `next_section` reports an error, the iterator state has
`found_start` set and an unchanged remainder, so calling `next_section`
again reproduces the identical error with the identical state. -/
theorem next_section_error_repeat {it it' : EntryIter} {e : ParseError}
    (h : it.next_section = (it', .error e)) :
    it'.found_start = true ∧ it'.next_section = (it', .error e) := by
  unfold EntryIter.next_section at h
  by_cases hf : it.found_start = true
  · rw [if_pos hf] at h
    unfold EntryIter.next_section_from at h
    split at h
    · rename_i e0 hsec
      cases h
      refine ⟨hf, ?_⟩
      unfold EntryIter.next_section
      rw [if_pos hf]
      unfold EntryIter.next_section_from
      rw [hsec]
    · have := congrArg Prod.snd h
      simp at this
  · rw [if_neg hf] at h
    unfold EntryIter.next_section_from at h
    split at h
    · rename_i e0 hsec
      cases h
      refine ⟨rfl, ?_⟩
      unfold EntryIter.next_section
      rw [if_pos rfl]
      unfold EntryIter.next_section_from
      rw [hsec]
    · have := congrArg Prod.snd h
      simp at this

/-- `collectFrom` when the iterator is exhausted. -/
theorem collectFrom_eq_nil {it it' : EntryIter}
    (h : EntryIter.next it = (it', none)) : collectFrom it = .ok [] := by
  rw [collectFrom]
  split
  · rfl
  · rename_i heq
    rw [h] at heq
    simp at heq
  · rename_i heq
    rw [h] at heq
    simp at heq

/-- `collectFrom` when the next call reports an error: the collection
short-circuits with that error. -/
theorem collectFrom_eq_error {it it' : EntryIter} {e : ParseError}
    (h : EntryIter.next it = (it', some (.error e))) : collectFrom it = .error e := by
  rw [collectFrom]
  split
  · rename_i heq
    rw [h] at heq
    simp at heq
  · rename_i e2 heq
    rw [h] at heq
    have h2 : (Except.error e : Except ParseError SectionBytes) = .error e2 := by
      have := congrArg Prod.snd heq
      simpa using this
    cases h2
    rfl
  · rename_i heq
    rw [h] at heq
    have := congrArg Prod.snd heq
    simp at this

/-- `collectFrom` when the next call yields a section. -/
theorem collectFrom_eq_cons {it it' : EntryIter} {sb : SectionBytes}
    (h : EntryIter.next it = (it', some (.ok sb))) :
    collectFrom it =
      match collectFrom it' with
      | .error e => .error e
      | .ok rest => .ok (sb :: rest) := by
  rw [collectFrom]
  split
  · rename_i heq
    rw [h] at heq
    simp at heq
  · rename_i e2 heq
    rw [h] at heq
    have := congrArg Prod.snd heq
    simp at this
  · rename_i it2 sb2 heq
    rw [h] at heq
    have h1 : it2 = it' := by
      have := congrArg Prod.fst heq
      simpa using this.symm
    have h2 : (Except.ok sb : Except ParseError SectionBytes) = .ok sb2 := by
      have := congrArg Prod.snd heq
      simpa using this
    cases h2
    rw [h1]

/-! ## Claims -/

/-- Input `b"Size=48\nScale=1"` from the spec's scenario. -/
def c1data : List Nat := [83, 105, 122, 101, 61, 52, 56, 10, 83, 99, 97, 108, 101, 61, 49]

/-- C1 (counterexample): on the nonempty bracket-free input
`b"Size=48\nScale=1"` tokenization does NOT produce zero sections —
the preamble skip consumes the whole buffer and the subsequent section
parse fails at end of input with a `Tag` error, and store construction
fails, contrary to the claim. -/
theorem c1_counterexample :
    collectSections c1data = .error (.Other (.Valid []) .Tag) ∧
    (Internal.new c1data).isOk = false := by
  constructor
  · rw [← collectSectionsF_eq]
    decide
  · rw [← InternalNewF_eq]
    decide

/-- C1 (amended): for input containing no `[` byte, only the empty input
yields zero sections and a successful empty-store build; any nonempty
bracket-free input makes the first `next` call fail (the preamble skip
consumes everything and the header parse then fails at end of input with
a `Tag` error), so tokenization errors and the store build fails. -/
theorem c1_no_bracket (data : List Nat) (h91 : 91 ∉ data) :
    (data = [] →
      collectSections data = .ok [] ∧
      Internal.new data = .ok { map := some HMap.empty, data := [] }) ∧
    (data ≠ [] →
      collectSections data = .error (.Other (.Valid []) .Tag) ∧
      Internal.new data = .error (.Other (.Valid []) .Tag)) := by
  constructor
  · rintro rfl
    constructor
    · rw [← collectSectionsF_eq]
      rfl
    · rw [← InternalNewF_eq]
      rfl
  · intro hne
    have hfs : (find_start data).1 = [] := by
      unfold find_start take_till
      exact dropWhile_not_mem h91
    have hns : EntryIter.next_section ⟨data, false⟩ =
        (⟨[], true⟩, .error (.Other (.Valid []) .Tag)) := by
      unfold EntryIter.next_section
      rw [if_neg (by simp)]
      dsimp only
      rw [hfs]
      rfl
    have hnext : EntryIter.next ⟨data, false⟩ =
        (⟨[], true⟩, some (.error (.Other (.Valid []) .Tag))) := by
      unfold EntryIter.next
      rw [if_neg (by simp [List.isEmpty_iff, hne])]
      rw [hns]
    have hcoll : collectSections data = .error (.Other (.Valid []) .Tag) :=
      collectFrom_eq_error hnext
    refine ⟨hcoll, ?_⟩
    unfold Internal.new
    rw [hcoll]

/-- C1 (witness): the amended claim at the concrete spec scenario input. -/
theorem c1_no_bracket_witness :
    91 ∉ c1data ∧
    (collectSections c1data = .error (.Other (.Valid []) .Tag) ∧
     Internal.new c1data = .error (.Other (.Valid []) .Tag)) :=
  ⟨by decide, (c1_no_bracket c1data (by decide)).2 (by decide)⟩

/-- C5 (counterexample): on input `b"x"` the first `next` call reports an
error, but the following call yields `None` (exhaustion) instead of
re-reporting the identical error, contrary to the claim that every
subsequent call re-reports it. -/
theorem c5_counterexample :
    EntryIter.next (parse_entry [120]) =
      (⟨[], true⟩, some (.error (.Other (.Valid []) .Tag))) ∧
    EntryIter.next ⟨[], true⟩ = (⟨[], true⟩, none) := by
  constructor
  · decide
  · decide

/-- C5 (amended): an error freezes the iterator state (`found_start` set,
remainder unchanged); the next call re-reports the identical error
whenever the frozen remainder is nonempty, and reports exhaustion
(`None`) when the error left the remainder empty — which happens exactly
when the first call's preamble skip consumed the entire input. -/
theorem c5_error_freezes (it it' : EntryIter) (e : ParseError)
    (h : EntryIter.next it = (it', some (.error e))) :
    EntryIter.next it' =
      if it'.rem.isEmpty then (it', none) else (it', some (.error e)) := by
  unfold EntryIter.next at h
  split at h
  · have := congrArg Prod.snd h
    simp at this
  · rename_i hne
    have hns' : it.next_section = (it', .error e) := by
      rcases hq : it.next_section with ⟨a, r⟩
      rw [hq] at h
      dsimp only at h
      have h1 : a = it' := congrArg Prod.fst h
      have h2 : some r = some (Except.error e : Except ParseError SectionBytes) := congrArg Prod.snd h
      have h3 : r = .error e := by simpa using h2
      rw [h1, h3]
    obtain ⟨hfs, hrep⟩ := next_section_error_repeat hns'
    unfold EntryIter.next
    by_cases hre : it'.rem.isEmpty = true
    · rw [if_pos hre, if_pos hre]
    · rw [if_neg hre, if_neg hre]
      rw [hrep]

/-- C5 (witness): after the error on `b"[a"` (missing `]`), the frozen
remainder is nonempty and the identical error is re-reported. -/
theorem c5_error_freezes_witness :
    EntryIter.next (⟨[91, 97], true⟩ : EntryIter) =
      ((⟨[91, 97], true⟩ : EntryIter), some (.error (.Other (.Valid []) .Tag))) := by
  have h := c5_error_freezes (parse_entry [91, 97]) ⟨[91, 97], true⟩
    (.Other (.Valid []) .Tag) (by decide)
  simpa using h

/-- C7 (counterexample): the input `b"[]"` begins with `[` and a `]`
follows, yet the header parse fails (`take_till1` rejects the empty
title) instead of succeeding with an empty name, contrary to the claim. -/
theorem c7_counterexample :
    [91, 93].head? = some 91 ∧ header [91, 93] = .error ⟨[93], .TakeTill1⟩ := by
  decide

/-- C7 (amended): for input beginning with `[` the header parse succeeds
exactly when a nonempty, `]`-free name is followed by a `]`; the name is
the bytes strictly between the `[` and that first `]`.  A `[` with no
following `]` is a hard parse error, and so is an immediately following
`]` (empty name). -/
theorem c7_header_charact (input : List Nat) (h : input.head? = some 91) :
    (∀ rem name, header input = .ok (rem, name) →
        name ≠ [] ∧ 93 ∉ name ∧ input = 91 :: (name ++ 93 :: rem)) ∧
    (∀ rem name, name ≠ [] → 93 ∉ name → input = 91 :: (name ++ 93 :: rem) →
        header input = .ok (rem, name)) ∧
    (93 ∉ input.drop 1 → ∃ e, header input = .error e) ∧
    ((input.drop 1).head? = some 93 →
        header input = .error ⟨input.drop 1, .TakeTill1⟩) := by
  rcases input with _ | ⟨c, t⟩
  · cases h
  · have hc : c = 91 := by simpa using h
    subst hc
    refine ⟨?_, ?_, ?_, ?_⟩
    · intro rem name hok
      unfold header at hok
      rw [tag_single_cons, if_pos rfl] at hok
      dsimp only at hok
      unfold take_till1 take_till at hok
      dsimp only at hok
      split at hok
      · cases hok
      · rename_i rem3 snd htk
        split at htk
        · cases htk
        · rename_i hne'
          have htk2 := htk
          injection htk2 with htk3
          have hr3 : rem3 = List.dropWhile (fun c => !(c == 93)) t :=
            (congrArg Prod.fst htk3).symm
          have hsn : snd = List.takeWhile (fun c => !(c == 93)) t :=
            (congrArg Prod.snd htk3).symm
          subst hr3
          subst hsn
          rcases hdw : List.dropWhile (fun c => !(c == 93)) t with _ | ⟨r0, rr⟩
          · rw [hdw, tag_single_nil] at hok
            cases hok
          · rw [hdw, tag_single_cons] at hok
            split at hok
            · cases hok
            · rename_i rem4 snd4 heq4
              have hrem : rem = rem4 := by
                injection hok with hok2
                exact (congrArg Prod.fst hok2).symm
              have hname : name = List.takeWhile (fun c => !(c == 93)) t := by
                injection hok with hok2
                exact (congrArg Prod.snd hok2).symm
              subst hrem
              subst hname
              split at heq4
              · rename_i hr0
                have hrr : rr = rem := by
                  injection heq4 with heq5
                  exact congrArg Prod.fst heq5
                subst hr0
                refine ⟨by simpa [List.isEmpty_iff] using hne', ?_, ?_⟩
                · intro hmem
                  have := List.mem_takeWhile_imp hmem
                  simp at this
                · have happ := List.takeWhile_append_dropWhile (fun c => !(c == 93)) t
                  rw [hdw, hrr] at happ
                  rw [happ]
              · cases heq4
    · intro rem name hne hnc heq
      have h2 : t = name ++ 93 :: rem := by
        have := congrArg List.tail heq
        simpa using this
      rw [heq]
      exact header_decomp name rem hne hnc
    · intro hnm
      simp only [List.drop_one, List.tail_cons] at hnm
      have hdw : List.dropWhile (fun c => !(c == 93)) t = [] := dropWhile_not_mem hnm
      have htw : List.takeWhile (fun c => !(c == 93)) t = t := by
        have := List.takeWhile_append_dropWhile (fun c => !(c == 93)) t
        rw [hdw, List.append_nil] at this
        exact this
      unfold header
      rw [tag_single_cons, if_pos rfl]
      dsimp only
      unfold take_till1 take_till
      dsimp only
      rw [htw, hdw]
      rcases t with _ | ⟨t0, tt⟩
      · exact ⟨⟨[], .TakeTill1⟩, rfl⟩
      · rw [if_neg (by simp)]
        dsimp only
        rw [tag_single_nil]
        exact ⟨⟨[], .Tag⟩, rfl⟩
    · intro h93
      simp only [List.drop_one] at h93 ⊢
      rcases t with _ | ⟨t0, tt⟩
      · cases h93
      · have ht0 : t0 = 93 := by simpa using h93
        subst ht0
        unfold header
        rw [tag_single_cons, if_pos rfl]
        dsimp only
        unfold take_till1 take_till
        dsimp only
        rw [List.takeWhile_cons, List.dropWhile_cons]
        simp

/-- C7 (witness): the amended characterization at `b"[ab]c"`. -/
theorem c7_header_charact_witness :
    header [91, 97, 98, 93, 99] = .ok ([99], [97, 98]) :=
  (c7_header_charact [91, 97, 98, 93, 99] (by decide)).2.1 [99] [97, 98]
    (by decide) (by decide) rfl

/-- C8 (confirmed): a section header followed by nothing but
whitespace/comments (no attribute line) is a hard parse error —
`many1(attr)` fails at its first iteration with a `Tag` error at end of
input — and store construction fails with the corresponding structural
parse failure. -/
theorem c8_zero_attrs (title rest : List Nat)
    (h1 : title ≠ []) (h2 : 93 ∉ title) (h3 : next_line rest = .ok []) :
    «section» (91 :: (title ++ 93 :: rest)) = .error ⟨[], .Tag⟩ ∧
    collectSections (91 :: (title ++ 93 :: rest)) = .error (.Other (.Valid []) .Tag) ∧
    Internal.new (91 :: (title ++ 93 :: rest)) = .error (.Other (.Valid []) .Tag) := by
  have hsec : «section» (91 :: (title ++ 93 :: rest)) = .error ⟨[], .Tag⟩ := by
    unfold «section»
    rw [header_decomp title rest h1 h2]
    dsimp only
    rw [h3]
    dsimp only
    rw [show many1Attr [] = .error ⟨[], .Tag⟩ from by rw [← many1AttrF_eq]; rfl]
  have hns : EntryIter.next_section ⟨91 :: (title ++ 93 :: rest), false⟩ =
      (⟨91 :: (title ++ 93 :: rest), true⟩, .error (.Other (.Valid []) .Tag)) := by
    unfold EntryIter.next_section
    rw [if_neg (by simp)]
    dsimp only
    rw [find_start_bracket]
    unfold EntryIter.next_section_from
    dsimp only
    rw [find_start_bracket, hsec]
    rfl
  have hnext : EntryIter.next ⟨91 :: (title ++ 93 :: rest), false⟩ =
      (⟨91 :: (title ++ 93 :: rest), true⟩, some (.error (.Other (.Valid []) .Tag))) := by
    unfold EntryIter.next
    rw [if_neg (by simp)]
    rw [hns]
  have hcoll : collectSections (91 :: (title ++ 93 :: rest)) =
      .error (.Other (.Valid []) .Tag) := collectFrom_eq_error hnext
  refine ⟨hsec, hcoll, ?_⟩
  unfold Internal.new
  rw [hcoll]

/-- C8 (witness): the scenario input `b"[S]\n"`. -/
theorem c8_zero_attrs_witness :
    «section» [91, 83, 93, 10] = .error ⟨[], .Tag⟩ ∧
    collectSections [91, 83, 93, 10] = .error (.Other (.Valid []) .Tag) ∧
    Internal.new [91, 83, 93, 10] = .error (.Other (.Valid []) .Tag) :=
  c8_zero_attrs [83] [10] (by decide) (by decide)
    (by rw [← next_lineF_succ_eq]; rfl)

/-- Input `b"[A]\nK=V\nstray\n[B]\nL=W"`: a stray line between section A's
attributes and the next header. -/
def c2data : List Nat :=
  [91, 65, 93, 10, 75, 61, 86, 10, 115, 116, 114, 97, 121, 10, 91, 66, 93, 10, 76, 61, 87]

/-- C2 (counterexample): stray non-whitespace, non-comment content after a
section's attributes does NOT make tokenization fail: on
`b"[A]\nK=V\nstray\n[B]\nL=W"` the whole parse succeeds, silently
absorbing the stray line and the following `[B]` header into one
attribute named `"stray\n[B]\nL"` of section `A`; the store build
succeeds too. -/
theorem c2_counterexample :
    collectSections c2data = .ok [⟨[65], [⟨[75], [86], none⟩,
      ⟨[115, 116, 114, 97, 121, 10, 91, 66, 93, 10, 76], [87],
        some ⟨[66], [115, 116, 114, 97, 121, 10]⟩⟩]⟩] ∧
    (Internal.new c2data).isOk = true := by
  constructor
  · rw [← collectSectionsF_eq]
    decide
  · rw [← InternalNewF_eq]
    decide

/-- C2 (amended): stray content that does not begin with `[` is consumed
by an attribute-line parse attempt whose name extends to the first `=`
anywhere in the remaining input: if such an `=` exists the stray bytes
(newlines and later `[` headers included) are silently absorbed into a
successfully parsed attribute; only when no `=` remains does the attempt
fail (with a `Tag` error at end of input), ending the current section's
attribute list. -/
theorem c2_stray_attr_absorbed (input : List Nat) (h91 : ¬ input.head? = some 91) :
    (61 ∈ input → ∃ rem a, attr input = .ok (rem, a) ∧
        a.name = input.takeWhile (fun c => !(c == 61))) ∧
    (61 ∉ input → attr input = .error ⟨[], .Tag⟩) := by
  constructor
  · intro hmem
    obtain ⟨rem, hr⟩ := attr_mem_eq h91 hmem
    exact ⟨rem, _, hr, rfl⟩
  · intro hnm
    exact attr_not_mem h91 hnm

/-- C2 (witness): the amended claim at the stray tail
`b"stray\n[B]\nL=W"` — the attribute parse succeeds and the name spans
the stray line and the `[B]` header. -/
theorem c2_stray_attr_absorbed_witness :
    61 ∈ ([115, 116, 114, 97, 121, 10, 91, 66, 93, 10, 76, 61, 87] : List Nat) ∧
    (∃ rem a, attr [115, 116, 114, 97, 121, 10, 91, 66, 93, 10, 76, 61, 87] = .ok (rem, a) ∧
      a.name = [115, 116, 114, 97, 121, 10, 91, 66, 93, 10, 76]) := by
  refine ⟨by decide, ?_⟩
  obtain ⟨rem, a, h1, h2⟩ :=
    (c2_stray_attr_absorbed [115, 116, 114, 97, 121, 10, 91, 66, 93, 10, 76, 61, 87]
      (by decide)).1 (by decide)
  refine ⟨rem, a, h1, ?_⟩
  rw [h2]
  decide

/-- C6 (confirmed): for every successfully parsed attribute, the param
field is `Some` exactly when the raw name contains a `[`: the base name is
everything before the first `[`, the key is everything between that `[`
and the first `]` after it (the partial tail if no `]` exists); names
without `[` give `None`, and the sub-parse never fails the attribute. -/
theorem c6_param_subparse (input rem : List Nat) (a : AttrBytes)
    (h : attr input = .ok (rem, a)) :
    (91 ∈ a.name →
        a.param = some { param := ((a.name.dropWhile (fun c => !(c == 91))).drop 1).takeWhile (fun c => !(c == 93)),
                         attr_name := a.name.takeWhile (fun c => !(c == 91)) }) ∧
    (91 ∉ a.name → a.param = none) := by
  obtain ⟨hname, hparam⟩ := attr_ok_inv h
  constructor
  · intro hmem
    rw [hparam, params_mem hmem]
    rfl
  · intro hnm
    rw [hparam, params_not_mem hnm]
    rfl

/-- Input `b"Name[ast]=RW"`. -/
def c6data : List Nat := [78, 97, 109, 101, 91, 97, 115, 116, 93, 61, 82, 87]

/-- The attribute record parsed from `c6data` (structural mirror). -/
def c6attr : AttrBytes :=
  match attrF c6data with
  | .ok (_, a) => a
  | .error _ => ⟨[], [], none⟩

/-- C6 (witness): `"Name[ast]"` splits into base `"Name"` and key
`"ast"`. -/
theorem c6_param_subparse_witness :
    c6attr.param = some ⟨[97, 115, 116], [78, 97, 109, 101]⟩ := by
  have h : attr c6data = .ok ([], c6attr) := by
    rw [← attrF_eq]
    rfl
  have h2 := (c6_param_subparse c6data [] c6attr h).1 (by decide)
  rw [h2]
  decide

/-- The `AttrBytes` the tokenizer produces for a plain line `A=X`
(`A` without brackets has no param sub-parse result). -/
def plainAttrBytes (A X : List Nat) : AttrBytes :=
  { name := A, value := X, param := none }

/-- The `AttrBytes` the tokenizer produces for a parameterised line
`A[P]=Y`: raw name `A[P]`, param record with key `P` and base `A`. -/
def paramAttrBytes (A P Y : List Nat) : AttrBytes :=
  { name := A ++ 91 :: (P ++ [93]), value := Y, param := some ⟨P, A⟩ }

/-- `insertAttr` on a plain attribute, when the value and name decode. -/
theorem insertAttr_plain {m : AttrMap} {A X : List Nat}
    (hA : utf8Valid A = true) (hX : utf8Valid X = true) :
    insertAttr m (plainAttrBytes A X) =
      .ok (HMap.entryModOr m A (fun a => { a with value := some X })
            { value := some X, param_map := none }) := by
  unfold insertAttr plainAttrBytes parse_str
  rw [if_pos hX]
  dsimp only
  rw [if_pos hA]

/-- `insertAttr` on a parameterised attribute, when all slices decode. -/
theorem insertAttr_param {m : AttrMap} {A P Y : List Nat}
    (hA : utf8Valid A = true) (hP : utf8Valid P = true) (hY : utf8Valid Y = true) :
    insertAttr m (paramAttrBytes A P Y) =
      .ok (HMap.entryModOr m A
            (fun a =>
              { a with param_map := some (HMap.insert (a.param_map.getD ParamMap.new) P Y) })
            { value := none, param_map := some (HMap.insert HMap.empty P Y) }) := by
  unfold insertAttr paramAttrBytes parse_str
  rw [if_pos hY]
  dsimp only
  rw [if_pos hA]
  dsimp only
  rw [if_pos hP]

/-- C4 (confirmed): within one section the merge is order-independent for
the distinct sub-keys `A=X` and `A[P]=Y` — both orders produce the same
merged `AttrValue`, holding value `X` and parameter `P ↦ Y` — while two
plain declarations of the same name overwrite: `A=X` then `A=Z` leaves
value `Z` (last-write-wins, nothing appended). -/
theorem c4_merge (m : AttrMap) (A X P Y Z : List Nat)
    (hA : utf8Valid A = true) (hX : utf8Valid X = true) (hP : utf8Valid P = true)
    (hY : utf8Valid Y = true) (hZ : utf8Valid Z = true) :
    (∀ m1 m12 m2 m21,
        insertAttr m (plainAttrBytes A X) = .ok m1 →
        insertAttr m1 (paramAttrBytes A P Y) = .ok m12 →
        insertAttr m (paramAttrBytes A P Y) = .ok m2 →
        insertAttr m2 (plainAttrBytes A X) = .ok m21 →
        m12 = m21 ∧ ∃ pm, m12 A = some { value := some X, param_map := some pm } ∧
          pm P = some Y) ∧
    (∀ m1 mz,
        insertAttr m (plainAttrBytes A X) = .ok m1 →
        insertAttr m1 (plainAttrBytes A Z) = .ok mz →
        ∃ av, mz A = some av ∧ av.value = some Z) := by
  constructor
  · intro m1 m12 m2 m21 h1 h12 h2 h21
    rw [insertAttr_plain hA hX] at h1
    rw [insertAttr_param hA hP hY] at h2
    injection h1 with h1
    injection h2 with h2
    subst h1
    subst h2
    rw [insertAttr_param hA hP hY] at h12
    rw [insertAttr_plain hA hX] at h21
    injection h12 with h12
    injection h21 with h21
    subst h12
    subst h21
    constructor
    · funext q
      by_cases hq : q = A
      · subst hq
        rcases hm : m q with _ | ⟨v, pm⟩ <;>
          simp [HMap.entryModOr, HMap.insert, ParamMap.new, HMap.empty, hm]
      · simp [HMap.entryModOr, HMap.insert, hq]
        rcases hm : m A with _ | av <;>
          simp [HMap.entryModOr, HMap.insert, hm, hq]
    · rcases hm : m A with _ | ⟨v, pm⟩ <;>
        simp [HMap.entryModOr, HMap.insert, ParamMap.new, HMap.empty, hm]
  · intro m1 mz h1 hz
    rw [insertAttr_plain hA hX] at h1
    injection h1 with h1
    subst h1
    rw [insertAttr_plain hA hZ] at hz
    injection hz with hz
    subst hz
    rcases hm : m A with _ | ⟨v, pm⟩ <;>
      simp [HMap.entryModOr, HMap.insert, hm]

/-- C4 (witness): the merge at the empty map with concrete ASCII names. -/
theorem c4_merge_witness :
    (∀ m1 m12 m2 m21,
        insertAttr HMap.empty (plainAttrBytes [65] [88]) = .ok m1 →
        insertAttr m1 (paramAttrBytes [65] [112] [89]) = .ok m12 →
        insertAttr HMap.empty (paramAttrBytes [65] [112] [89]) = .ok m2 →
        insertAttr m2 (plainAttrBytes [65] [88]) = .ok m21 →
        m12 = m21 ∧ ∃ pm, m12 [65] = some { value := some [88], param_map := some pm } ∧
          pm [112] = some [89]) ∧
    (∀ m1 mz,
        insertAttr HMap.empty (plainAttrBytes [65] [88]) = .ok m1 →
        insertAttr m1 (plainAttrBytes [65] [90]) = .ok mz →
        ∃ av, mz [65] = some av ∧ av.value = some [90]) :=
  c4_merge HMap.empty [65] [88] [112] [89] [90]
    (by decide) (by decide) (by decide) (by decide) (by decide)

/-- C9 (confirmed): after a successful build the index is installed
(`map` is `Some`, so the `unwrap` in `get_section` cannot panic), and all
point lookups are total, mapping absence to `none`/`false`: a missing
section makes `get`, `has_section` and the attribute check all report
absence, a missing attribute makes `get` report `none`, and a missing
parameter map makes parameterised `get` report `none`. -/
theorem c9_lookups_total (data : List Nat) (st : Internal)
    (h : Internal.new data = .ok st) :
    st.map.isSome = true ∧
    (∀ s, Internal.has_section st s = (Internal.get_section st s).isSome) ∧
    (∀ s a p, Internal.get_section st s = none → Internal.get st s a p = none ∧
        Internal.has_section st s = false ∧ Entry.has_attr st s a = false) ∧
    (∀ s a p, Internal.get_attr st s a = none → Internal.get st s a p = none) ∧
    (∀ s a P av, Internal.get_attr st s a = some av → av.param_map = none →
        Internal.get st s a (some P) = none) := by
  refine ⟨?_, ?_, ?_, ?_, ?_⟩
  · unfold Internal.new at h
    split at h
    · cases h
    · split at h
      · cases h
      · cases h
        rfl
  · intro s
    rfl
  · intro s a p hs
    refine ⟨?_, ?_, ?_⟩
    · unfold Internal.get
      rw [hs]
    · unfold Internal.has_section
      rw [hs]
      rfl
    · unfold Entry.has_attr Internal.get_attr
      rw [hs]
      rfl
  · intro s a p hga
    unfold Internal.get_attr at hga
    unfold Internal.get
    rcases hgs : Internal.get_section st s with _ | sm
    · rfl
    · rw [hgs] at hga
      dsimp only at hga ⊢
      rw [hga]
  · intro s a P av hga hpm
    unfold Internal.get_attr at hga
    unfold Internal.get
    rcases hgs : Internal.get_section st s with _ | sm
    · rfl
    · rw [hgs] at hga
      dsimp only at hga ⊢
      rw [hga]
      dsimp only
      rw [hpm]

/-- Extract the store from a build result (used only to name the store in
concrete witnesses; the `error` fallback is irrelevant there). -/
def okD (x : Except ParseError Internal) : Internal :=
  match x with
  | .ok st => st
  | .error _ => { map := none, data := [] }

/-- Input `b"[S]\nK=V"`. -/
def c9data : List Nat := [91, 83, 93, 10, 75, 61, 86]

/-- C9 (witness): a successful build on `b"[S]\nK=V"` has its index
installed, and lookup of the absent section `"X"` yields `none`. -/
theorem c9_lookups_total_witness :
    (okD (InternalNewF c9data)).map.isSome = true ∧
    Internal.get (okD (InternalNewF c9data)) [88] [75] none = none := by
  have h : Internal.new c9data = .ok (okD (InternalNewF c9data)) := by
    rw [← InternalNewF_eq]
    rfl
  have hc := c9_lookups_total c9data _ h
  exact ⟨hc.1, (hc.2.2.1 [88] [75] none (by rfl)).1⟩

/-! ## Index characterization (for the duplicate-key and round-trip claims) -/

/-- The plain-attribute update performed by `insertAttr` (the `None` arm
of the `match` on `attr_bytes.param`). -/
def applyPlain (m : AttrMap) (K V : List Nat) : AttrMap :=
  HMap.entryModOr m K (fun a => { a with value := some V })
    { value := some V, param_map := none }

/-- The parameterised-attribute update performed by `insertAttr` (the
`Some` arm of the `match` on `attr_bytes.param`). -/
def applyParam (m : AttrMap) (K Pk V : List Nat) : AttrMap :=
  HMap.entryModOr m K
    (fun a => { a with param_map := some (HMap.insert (a.param_map.getD ParamMap.new) Pk V) })
    { value := none, param_map := some (HMap.insert HMap.empty Pk V) }

/-- The key under which `insertAttr` files an attribute record: the
decoded base name for parameterised attributes and the decoded raw name
for plain ones. -/
def attrKey (a : AttrBytes) : Except ParseError (List Nat) :=
  match a.param with
  | some pb => parse_str pb.attr_name
  | none => parse_str a.name

/-- The plain value stored at key `A` by an attribute map. -/
def valueAt (m : AttrMap) (A : List Nat) : Option (List Nat) :=
  match m A with
  | some av => av.value
  | none => none

/-- The parameter value stored at key `A`, parameter `P`. -/
def paramAt (m : AttrMap) (A P : List Nat) : Option (List Nat) :=
  match m A with
  | some av =>
    match av.param_map with
    | some pm => pm P
    | none => none
  | none => none

/-- Successful `insertAttr` is exactly one of the two updates. -/
theorem insertAttr_shape {m : AttrMap} {a : AttrBytes} {m' : AttrMap}
    (h : insertAttr m a = .ok m') :
    (∃ K V, a.param = none ∧ parse_str a.name = .ok K ∧ parse_str a.value = .ok V ∧
      m' = applyPlain m K V) ∨
    (∃ pb K Pk V, a.param = some pb ∧ parse_str pb.attr_name = .ok K ∧
      parse_str pb.param = .ok Pk ∧ parse_str a.value = .ok V ∧
      m' = applyParam m K Pk V) := by
  unfold insertAttr at h
  split at h
  · cases h
  · rename_i V hV
    split at h
    · rename_i pb hpb
      split at h
      · cases h
      · rename_i K hK
        split at h
        · cases h
        · rename_i Pk hPk
          cases h
          exact Or.inr ⟨pb, K, Pk, V, hpb, hK, hPk, hV, rfl⟩
    · rename_i hpb
      split at h
      · cases h
      · rename_i K hK
        cases h
        exact Or.inl ⟨K, V, hpb, hK, hV, rfl⟩

/-- Both updates leave every other key untouched. -/
theorem applyPlain_other {m : AttrMap} {K : List Nat} (V : List Nat) {B : List Nat}
    (h : B ≠ K) : applyPlain m K V B = m B := by
  unfold applyPlain HMap.entryModOr HMap.insert
  rcases m K <;> simp [h]

/-- Both updates leave every other key untouched. -/
theorem applyParam_other {m : AttrMap} {K : List Nat} (Pk V : List Nat) {B : List Nat}
    (h : B ≠ K) : applyParam m K Pk V B = m B := by
  unfold applyParam HMap.entryModOr HMap.insert
  rcases m K <;> simp [h]

/-- The plain update sets the value at its key. -/
theorem applyPlain_valueAt (m : AttrMap) (K V : List Nat) :
    valueAt (applyPlain m K V) K = some V := by
  unfold valueAt applyPlain HMap.entryModOr HMap.insert
  rcases m K <;> simp

/-- The plain update does not touch any parameter binding at its key. -/
theorem applyPlain_paramAt (m : AttrMap) (K V : List Nat) (P : List Nat) :
    paramAt (applyPlain m K V) K P = paramAt m K P := by
  unfold paramAt applyPlain HMap.entryModOr HMap.insert
  rcases m K with _ | av
  · simp
  · rcases av with ⟨v, pm⟩
    simp

/-- The parameterised update does not touch the plain value at its key. -/
theorem applyParam_valueAt (m : AttrMap) (K Pk V : List Nat) :
    valueAt (applyParam m K Pk V) K = valueAt m K := by
  unfold valueAt applyParam HMap.entryModOr HMap.insert
  rcases m K with _ | av
  · simp
  · rcases av with ⟨v, pm⟩
    simp

/-- The parameterised update sets its parameter binding at its key. -/
theorem applyParam_paramAt_same (m : AttrMap) (K Pk V : List Nat) :
    paramAt (applyParam m K Pk V) K Pk = some V := by
  unfold paramAt applyParam HMap.entryModOr HMap.insert
  rcases m K with _ | av
  · simp
  · rcases av with ⟨v, pm⟩
    rcases pm with _ | pm <;> simp [ParamMap.new, HMap.empty, HMap.insert]

/-- The parameterised update leaves other parameter keys untouched. -/
theorem applyParam_paramAt_other (m : AttrMap) (K Pk V : List Nat) {Q : List Nat}
    (h : Q ≠ Pk) : paramAt (applyParam m K Pk V) K Q = paramAt m K Q := by
  unfold paramAt applyParam HMap.entryModOr HMap.insert
  rcases m K with _ | av
  · simp [HMap.empty, HMap.insert, h]
  · rcases av with ⟨v, pm⟩
    rcases pm with _ | pm <;> simp [ParamMap.new, HMap.empty, HMap.insert, h]

/-- A plain declaration of (decoded) name `A`. -/
def isPlainFor (A : List Nat) (a : AttrBytes) : Bool :=
  a.param.isNone && decide (parse_str a.name = .ok A)

/-- A parameterised declaration of (decoded) base `A` and key `P`. -/
def isParamFor (A P : List Nat) (a : AttrBytes) : Bool :=
  match a.param with
  | some pb => decide (parse_str pb.attr_name = .ok A ∧ parse_str pb.param = .ok P)
  | none => false

/-- A section whose title decodes to `S`. -/
def sectionTitledP (S : List Nat) (sb : SectionBytes) : Bool :=
  decide (parse_str sb.title = .ok S)

/-- The attribute loop leaves the plain value at `A` untouched when no
attribute in the list is a plain declaration of `A`. -/
theorem buildAttrMap_valueAt_untouched :
    ∀ (attrs : List AttrBytes) (m m' : AttrMap) (A : List Nat),
      buildAttrMap attrs m = .ok m' → (∀ a ∈ attrs, isPlainFor A a = false) →
      valueAt m' A = valueAt m A := by
  intro attrs
  induction attrs with
  | nil =>
    intro m m' A h _
    cases h
    rfl
  | cons a rest ih =>
    intro m m' A h hall
    unfold buildAttrMap at h
    split at h
    · cases h
    · rename_i m1 hins
      have hstep : valueAt m1 A = valueAt m A := by
        rcases insertAttr_shape hins with
          ⟨K, V, hpn, hK, hV, rfl⟩ | ⟨pb, K, Pk, V, hpb, hK, hPk, hV, rfl⟩
        · have hKA : K ≠ A := by
            intro hKA
            subst hKA
            have hfalse := hall a (by simp)
            unfold isPlainFor at hfalse
            rw [hpn, hK] at hfalse
            simp at hfalse
          unfold valueAt
          rw [applyPlain_other V (Ne.symm hKA)]
        · by_cases hKA : K = A
          · subst hKA
            exact applyParam_valueAt m K Pk V
          · unfold valueAt
            rw [applyParam_other Pk V (Ne.symm hKA)]
      rw [ih m1 m' A h (fun x hx => hall x (by simp [hx]))]
      exact hstep

/-- The attribute loop leaves the parameter binding `(A, P)` untouched
when no attribute in the list is a parameterised declaration of it. -/
theorem buildAttrMap_paramAt_untouched :
    ∀ (attrs : List AttrBytes) (m m' : AttrMap) (A P : List Nat),
      buildAttrMap attrs m = .ok m' → (∀ a ∈ attrs, isParamFor A P a = false) →
      paramAt m' A P = paramAt m A P := by
  intro attrs
  induction attrs with
  | nil =>
    intro m m' A P h _
    cases h
    rfl
  | cons a rest ih =>
    intro m m' A P h hall
    unfold buildAttrMap at h
    split at h
    · cases h
    · rename_i m1 hins
      have hstep : paramAt m1 A P = paramAt m A P := by
        rcases insertAttr_shape hins with
          ⟨K, V, hpn, hK, hV, rfl⟩ | ⟨pb, K, Pk, V, hpb, hK, hPk, hV, rfl⟩
        · by_cases hKA : K = A
          · subst hKA
            exact applyPlain_paramAt m K V P
          · unfold paramAt
            rw [applyPlain_other V (Ne.symm hKA)]
        · by_cases hKA : K = A
          · subst hKA
            have hfalse := hall a (by simp)
            unfold isParamFor at hfalse
            rw [hpb] at hfalse
            have hnot := of_decide_eq_false hfalse
            have hPkP : P ≠ Pk := by
              intro hPP
              subst hPP
              exact hnot ⟨hK, hPk⟩
            exact applyParam_paramAt_other m K Pk V hPkP
          · unfold paramAt
            rw [applyParam_other Pk V (Ne.symm hKA)]
      rw [ih m1 m' A P h (fun x hx => hall x (by simp [hx]))]
      exact hstep

/-- After the attribute loop, the plain value at `A` is the value of the
last plain declaration of `A` in the list. -/
theorem buildAttrMap_last_value :
    ∀ (attrs : List AttrBytes) (m m' : AttrMap) (A : List Nat) (a : AttrBytes) (V : List Nat),
      buildAttrMap attrs m = .ok m' →
      (attrs.filter (isPlainFor A)).getLast? = some a →
      parse_str a.value = .ok V →
      valueAt m' A = some V := by
  intro attrs
  induction attrs with
  | nil =>
    intro m m' A a V _ hlast _
    simp at hlast
  | cons a0 rest ih =>
    intro m m' A a V h hlast hV
    unfold buildAttrMap at h
    split at h
    · cases h
    · rename_i m1 hins
      rw [List.filter_cons] at hlast
      by_cases hp : isPlainFor A a0 = true
      · rw [if_pos hp] at hlast
        rcases hrest : rest.filter (isPlainFor A) with _ | ⟨b, l⟩
        · rw [hrest] at hlast
          have ha : a0 = a := by simpa using hlast
          subst ha
          unfold isPlainFor at hp
          have hp2 : a0.param = none ∧ parse_str a0.name = .ok A := by
            simpa [Option.isNone_iff_eq_none] using hp
          have hpn : a0.param = none := hp2.1
          have hK : parse_str a0.name = .ok A := hp2.2
          rcases insertAttr_shape hins with
            ⟨K, V0, hpn', hK', hV0, rfl⟩ | ⟨pb, K, Pk, V0, hpb, hK', hPk, hV0, rfl⟩
          · have hKA : K = A := by
              rw [hK'] at hK
              injection hK
            have hVV : V0 = V := by
              rw [hV0] at hV
              injection hV
            subst hKA
            subst hVV
            have hrest_none : ∀ x ∈ rest, isPlainFor K x = false := by
              intro x hx
              have := List.filter_eq_nil_iff.mp hrest x hx
              simpa using this
            rw [buildAttrMap_valueAt_untouched rest _ m' K h hrest_none]
            exact applyPlain_valueAt m K V0
          · rw [hpn] at hpb
            cases hpb
        · rw [hrest, List.getLast?_cons_cons, ← hrest] at hlast
          exact ih m1 m' A a V h hlast hV
      · rw [if_neg hp] at hlast
        exact ih m1 m' A a V h hlast hV

/-- After the attribute loop, the parameter binding `(A, P)` is the value
of the last parameterised declaration of `(A, P)` in the list. -/
theorem buildAttrMap_last_param :
    ∀ (attrs : List AttrBytes) (m m' : AttrMap) (A P : List Nat) (a : AttrBytes) (V : List Nat),
      buildAttrMap attrs m = .ok m' →
      (attrs.filter (isParamFor A P)).getLast? = some a →
      parse_str a.value = .ok V →
      paramAt m' A P = some V := by
  intro attrs
  induction attrs with
  | nil =>
    intro m m' A P a V _ hlast _
    simp at hlast
  | cons a0 rest ih =>
    intro m m' A P a V h hlast hV
    unfold buildAttrMap at h
    split at h
    · cases h
    · rename_i m1 hins
      rw [List.filter_cons] at hlast
      by_cases hp : isParamFor A P a0 = true
      · rw [if_pos hp] at hlast
        rcases hrest : rest.filter (isParamFor A P) with _ | ⟨b, l⟩
        · rw [hrest] at hlast
          have ha : a0 = a := by simpa using hlast
          subst ha
          unfold isParamFor at hp
          rcases hpb0 : a0.param with _ | pb0
          · rw [hpb0] at hp
            cases hp
          · rw [hpb0] at hp
            have hp2 := of_decide_eq_true hp
            rcases insertAttr_shape hins with
              ⟨K, V0, hpn', hK', hV0, rfl⟩ | ⟨pb, K, Pk, V0, hpb, hK', hPk, hV0, rfl⟩
            · rw [hpn'] at hpb0
              cases hpb0
            · rw [hpb] at hpb0
              have hpbeq : pb = pb0 := by injection hpb0
              subst hpbeq
              have hKA : K = A := by
                rw [hK'] at hp2
                injection hp2.1
              have hPkP : Pk = P := by
                rw [hPk] at hp2
                injection hp2.2
              have hVV : V0 = V := by
                rw [hV0] at hV
                injection hV
              subst hKA
              subst hPkP
              subst hVV
              have hrest_none : ∀ x ∈ rest, isParamFor K Pk x = false := by
                intro x hx
                have := List.filter_eq_nil_iff.mp hrest x hx
                simpa using this
              rw [buildAttrMap_paramAt_untouched rest _ m' K Pk h hrest_none]
              exact applyParam_paramAt_same m K Pk V0
        · rw [hrest, List.getLast?_cons_cons, ← hrest] at hlast
          exact ih m1 m' A P a V h hlast hV
      · rw [if_neg hp] at hlast
        exact ih m1 m' A P a V h hlast hV

/-- The section loop: the entry at `S` is the attribute map of the last
section titled `S` (and is untouched if no section is titled `S`). -/
theorem buildSections_lookup :
    ∀ (sbs : List SectionBytes) (s sm : InternalMap) (S : List Nat),
      buildSections sbs s = .ok sm →
      ((sbs.filter (sectionTitledP S)) = [] → sm S = s S) ∧
      (∀ sb, (sbs.filter (sectionTitledP S)).getLast? = some sb →
        ∃ am, buildAttrMap sb.attrs HMap.empty = .ok am ∧ sm S = some am) := by
  intro sbs
  induction sbs with
  | nil =>
    intro s sm S h
    cases h
    exact ⟨fun _ => rfl, fun sb hl => by simp at hl⟩
  | cons sb0 rest ih =>
    intro s sm S h
    unfold buildSections at h
    split at h
    · cases h
    · rename_i t0 ht0
      split at h
      · cases h
      · rename_i am0 ham0
        have IH := ih _ sm S h
        rw [List.filter_cons]
        by_cases hp : sectionTitledP S sb0 = true
        · have ht0S : t0 = S := by
            unfold sectionTitledP at hp
            have := of_decide_eq_true hp
            rw [ht0] at this
            injection this
          constructor
          · intro hnil
            rw [if_pos hp] at hnil
            simp at hnil
          · intro sb hlast
            rw [if_pos hp] at hlast
            rcases hrest : rest.filter (sectionTitledP S) with _ | ⟨b, l⟩
            · rw [hrest] at hlast
              have hsb : sb0 = sb := by simpa using hlast
              subst hsb
              have hsm := IH.1 hrest
              refine ⟨am0, ham0, ?_⟩
              rw [hsm]
              unfold HMap.insert
              simp [ht0S]
            · rw [hrest, List.getLast?_cons_cons, ← hrest] at hlast
              exact IH.2 sb hlast
        · have ht0S : t0 ≠ S := by
            intro he
            apply hp
            unfold sectionTitledP
            rw [ht0, he]
            simp
          rw [if_neg hp]
          constructor
          · intro hnil
            rw [IH.1 hnil]
            unfold HMap.insert
            rw [if_neg (fun he => ht0S (Eq.symm he))]
          · exact fun sb hl => IH.2 sb hl

/-- After a successful build, the index's entry for `S` is the attribute
map built from the last tokenized section titled `S`. -/
theorem new_section_map {data : List Nat} {st : Internal} {sbs : List SectionBytes}
    {S : List Nat} {sb : SectionBytes}
    (h1 : Internal.new data = .ok st) (h2 : collectSections data = .ok sbs)
    (h3 : (sbs.filter (sectionTitledP S)).getLast? = some sb) :
    ∃ am, buildAttrMap sb.attrs HMap.empty = .ok am ∧
      Internal.get_section st S = some am := by
  unfold Internal.new at h1
  rw [h2] at h1
  dsimp only at h1
  split at h1
  · cases h1
  · rename_i sections hbs
    cases h1
    obtain ⟨am, ham, hsm⟩ := (buildSections_lookup sbs HMap.empty sections S hbs).2 sb h3
    refine ⟨am, ham, ?_⟩
    unfold Internal.get_section
    exact hsm

/-- C10 (confirmed): when the same title heads several sections, the built
index has exactly one entry for it, whose attribute map is that of the
last such section in file order (`sections.insert` overwrites wholesale);
attributes present only in an earlier same-titled section are absent from
the store. -/
theorem c10_duplicate_sections (data : List Nat) (st : Internal)
    (sbs : List SectionBytes) (S : List Nat) (sb : SectionBytes)
    (h1 : Internal.new data = .ok st) (h2 : collectSections data = .ok sbs)
    (h3 : (sbs.filter (sectionTitledP S)).getLast? = some sb) :
    ∃ am, buildAttrMap sb.attrs HMap.empty = .ok am ∧
      Internal.get_section st S = some am ∧
      (∀ A, AttrMap.get_attr am A = none → ∀ p, Internal.get st S A p = none) := by
  obtain ⟨am, ham, hsm⟩ := new_section_map h1 h2 h3
  refine ⟨am, ham, hsm, ?_⟩
  intro A hA p
  unfold Internal.get
  rw [hsm]
  dsimp only
  rw [hA]

/-- Input `b"[S]\nA=1\n[S]\nB=2"` — two sections with the same title. -/
def c10data : List Nat :=
  [91, 83, 93, 10, 65, 61, 49, 10, 91, 83, 93, 10, 66, 61, 50]

/-- Its tokenization. -/
def c10sbs : List SectionBytes :=
  [⟨[83], [⟨[65], [49], none⟩]⟩, ⟨[83], [⟨[66], [50], none⟩]⟩]

/-- Extract the map from a `buildAttrMap` result (witness helper). -/
def okAM (x : Except ParseError AttrMap) : AttrMap :=
  match x with
  | .ok m => m
  | .error _ => HMap.empty

/-- C10 (witness): with duplicate `[S]` sections, `A` (declared only in
the first) is absent and the stored map for `S` is the second section's. -/
theorem c10_duplicate_sections_witness :
    Internal.get (okD (InternalNewF c10data)) [83] [65] none = none ∧
    Internal.get_section (okD (InternalNewF c10data)) [83] =
      some (okAM (buildAttrMap [⟨[66], [50], none⟩] HMap.empty)) := by
  have h1 : Internal.new c10data = .ok (okD (InternalNewF c10data)) := by
    rw [← InternalNewF_eq]
    rfl
  have h2 : collectSections c10data = .ok c10sbs := by
    rw [← collectSectionsF_eq]
    decide
  have h3 : (c10sbs.filter (sectionTitledP [83])).getLast? =
      some ⟨[83], [⟨[66], [50], none⟩]⟩ := by decide
  obtain ⟨am, ham, hsm, habs⟩ :=
    c10_duplicate_sections c10data _ c10sbs [83] ⟨[83], [⟨[66], [50], none⟩]⟩ h1 h2 h3
  dsimp only at ham
  have hamC : am = okAM (buildAttrMap [⟨[66], [50], none⟩] HMap.empty) := by
    have hb : buildAttrMap ([⟨[66], [50], none⟩] : List AttrBytes) HMap.empty =
        .ok (okAM (buildAttrMap [⟨[66], [50], none⟩] HMap.empty)) := rfl
    rw [hb] at ham
    exact (Except.ok.inj ham).symm
  constructor
  · exact habs [65] (by rw [hamC]; rfl) none
  · rw [hamC] at hsm
    exact hsm

/-- Input `b"[S]\nA=X\nA=Z"` — a duplicate plain declaration. -/
def c3cdata : List Nat := [91, 83, 93, 10, 65, 61, 88, 10, 65, 61, 90]

/-- C3 (counterexample): section `S` contains the plain attribute line
`A=X` (first conjunct shows the tokenization), the build succeeds, yet
`get(S, A, None)` is `Some("Z")`, not `Some("X")` — the claim as stated
fails for non-final duplicate declarations. -/
theorem c3_counterexample :
    collectSections c3cdata = .ok [⟨[83], [⟨[65], [88], none⟩, ⟨[65], [90], none⟩]⟩] ∧
    Internal.new c3cdata = InternalNewF c3cdata ∧
    Internal.get (okD (InternalNewF c3cdata)) [83] [65] none = some [90] := by
  refine ⟨?_, (InternalNewF_eq c3cdata).symm, ?_⟩
  · rw [← collectSectionsF_eq]
    decide
  · decide

/-- C3 (amended): round-trip holds for the *last* declarations: in the
last tokenized section titled `S`, if the last plain declaration of `A`
carries value `V` then `get(S, A, None) = Some V`, and if the last
declaration of parameter `P` of `A` carries value `V` then
`get(S, A, Some P) = Some V`. -/
theorem c3_roundtrip (data : List Nat) (st : Internal) (sbs : List SectionBytes)
    (S : List Nat) (sb : SectionBytes) (A : List Nat)
    (h1 : Internal.new data = .ok st) (h2 : collectSections data = .ok sbs)
    (h3 : (sbs.filter (sectionTitledP S)).getLast? = some sb) :
    (∀ a V, (sb.attrs.filter (isPlainFor A)).getLast? = some a →
        parse_str a.value = .ok V → Internal.get st S A none = some V) ∧
    (∀ P a V, (sb.attrs.filter (isParamFor A P)).getLast? = some a →
        parse_str a.value = .ok V → Internal.get st S A (some P) = some V) := by
  obtain ⟨am, ham, hsm⟩ := new_section_map h1 h2 h3
  constructor
  · intro a V hlast hV
    have hval := buildAttrMap_last_value sb.attrs HMap.empty am A a V ham hlast hV
    unfold Internal.get
    rw [hsm]
    dsimp only
    unfold valueAt at hval
    rcases hA : am A with _ | av
    · rw [hA] at hval
      cases hval
    · rw [hA] at hval
      unfold AttrMap.get_attr
      rw [hA]
      dsimp only
      unfold AttrValue.get_value
      exact hval
  · intro P a V hlast hV
    have hpar := buildAttrMap_last_param sb.attrs HMap.empty am A P a V ham hlast hV
    unfold Internal.get
    rw [hsm]
    dsimp only
    unfold paramAt at hpar
    rcases hA : am A with _ | av
    · rw [hA] at hpar
      cases hpar
    · rw [hA] at hpar
      dsimp only at hpar
      unfold AttrMap.get_attr
      rw [hA]
      dsimp only
      rcases hpm : av.param_map with _ | pm
      · simp only [hpm] at hpar
        cases hpar
      · simp only [hpm] at hpar ⊢
        unfold ParamMap.get_param
        exact hpar

/-- Input `b"[S]\nA=X\nA=Z\nA[p]=Y"`. -/
def c3wdata : List Nat :=
  [91, 83, 93, 10, 65, 61, 88, 10, 65, 61, 90, 10, 65, 91, 112, 93, 61, 89]

/-- Its single tokenized section. -/
def c3wsb : SectionBytes :=
  ⟨[83], [⟨[65], [88], none⟩, ⟨[65], [90], none⟩,
    ⟨[65, 91, 112, 93], [89], some ⟨[112], [65]⟩⟩]⟩

/-- C3 (witness): the amended round-trip on a concrete store — the last
plain `A` declaration (`A=Z`) and the last `A[p]` declaration (`A[p]=Y`)
are both returned by `get`. -/
theorem c3_roundtrip_witness :
    Internal.get (okD (InternalNewF c3wdata)) [83] [65] none = some [90] ∧
    Internal.get (okD (InternalNewF c3wdata)) [83] [65] (some [112]) = some [89] := by
  have h1 : Internal.new c3wdata = .ok (okD (InternalNewF c3wdata)) := by
    rw [← InternalNewF_eq]
    rfl
  have h2 : collectSections c3wdata = .ok [c3wsb] := by
    rw [← collectSectionsF_eq]
    decide
  have h3 : (([c3wsb] : List SectionBytes).filter (sectionTitledP [83])).getLast? =
      some c3wsb := by decide
  have hc := c3_roundtrip c3wdata _ [c3wsb] [83] c3wsb [65] h1 h2 h3
  constructor
  · exact hc.1 ⟨[65], [90], none⟩ [90] (by decide) (by decide)
  · exact hc.2 [112] ⟨[65, 91, 112, 93], [89], some ⟨[112], [65]⟩⟩ [89]
      (by decide) (by decide)
